import Mathlib

/-!
Shallow embedding of `three-mesh-halfedge` (src/core/HalfedgeDS.ts and the
vertex-merging helper `computeVerticesIndexArray`), with the primitive
operations `addVertex` / `addEdge` / `addFace` and `Halfedge.nextLoop`
modelled from the specification (their source files are not part of the
source tree given here; only their callers are).

JS numbers are modelled as exact rationals `ℚ`; `Math.round` corresponds to
Mathlib's `round` (both compute `⌊x + 1/2⌋`).  JS `Map` objects are modelled
as association lists where `set` prepends and `get` takes the first match,
which realises the observable get-after-set (last write wins) behaviour.
JS `Set` collections iterate in insertion order and are modelled as lists
with appends.
-/

namespace ThreeMeshHalfedge

/-- A 3D position with exact rational coordinates (models `THREE.Vector3`
holding JS numbers). -/
structure Vec3 where
  x : ℚ
  y : ℚ
  z : ℚ
deriving DecidableEq, Repr

instance : Inhabited Vec3 := ⟨⟨0, 0, 0⟩⟩

/-- Model of JS `Map.prototype.get`: first matching key in the association
list (entries are prepended by `jsSet`, so the most recent write wins). -/
def jsGet {K V : Type} [DecidableEq K] (m : List (K × V)) (k : K) : Option V :=
  (m.find? (fun p => decide (p.1 = k))).map (·.2)

/-- Model of JS `Map.prototype.set`: prepend the entry; together with
`jsGet` taking the first match this gives JS's replace-on-set semantics. -/
def jsSet {K V : Type} [DecidableEq K] (m : List (K × V)) (k : K) (v : V) :
    List (K × V) :=
  (k, v) :: m

/-- From src (`computeVerticesIndexArray` body): the hash string of one
position, the concatenation `${round(x*m)}${round(y*m)}${round(z*m)}` of the
rounded multiplier-scaled components.  Note: the code puts no separator
between the three components (unlike the `'-'` separator used in
`buildFromGeometry`'s edge hash). -/
def vertexHash (m : ℚ) (v : Vec3) : String :=
  toString (round (v.x * m)) ++ toString (round (v.y * m)) ++ toString (round (v.z * m))

/-- The per-axis quantized components of a position: the triple of rounded
multiplier-scaled coordinates.  This is the quantity the spec's §4.1 keys
deduplication on ("compare equal after independent per-axis quantization"). -/
def quantTriple (m : ℚ) (v : Vec3) : ℤ × ℤ × ℤ :=
  (round (v.x * m), round (v.y * m), round (v.z * m))

/-- From src: the loop of `computeVerticesIndexArray`.  Walks the position
list with the running index `i` and the hash table; a hash hit emits the
stored index, a miss emits `i` and records it. -/
def cviaGo (m : ℚ) : List Vec3 → ℕ → List (String × ℕ) → List ℕ
  | [], _, _ => []
  | v :: rest, i, hashMap =>
    match jsGet hashMap (vertexHash m v) with
    | some vertexIndex => vertexIndex :: cviaGo m rest (i + 1) hashMap
    | none => i :: cviaGo m rest (i + 1) (jsSet hashMap (vertexHash m v) i)

/-- From src: `computeVerticesIndexArray(positions, tolerance)`.  The code
computes `shiftMultiplier = 10 ** Math.log10(1/tolerance)` (floating point,
and with no `ceil` applied to the exponent); in exact arithmetic that equals
`1/tolerance` (see the real-valued model of the multiplier further below),
which is what this rational model uses. -/
def computeVerticesIndexArray (positions : List Vec3) (tolerance : ℚ) : List ℕ :=
  let shiftMultiplier := 1 / tolerance
  cviaGo shiftMultiplier positions 0 []

/-- First index of an element of `l` whose `vertexHash` is `k`, if any
(reference function used to characterise `computeVerticesIndexArray`). -/
def firstOcc (m : ℚ) (k : String) : List Vec3 → Option ℕ
  | [] => none
  | v :: rest =>
    if vertexHash m v = k then some 0 else (firstOcc m k rest).map (· + 1)

/-- The canonical index of position `i` of `vs`: the first index of `vs`
carrying the same hash string (`i` itself always matches, so for `i` in
range the lookup succeeds). -/
def canonIdx (m : ℚ) (vs : List Vec3) (i : ℕ) : ℕ :=
  (firstOcc m (vertexHash m (vs.getD i default)) vs).getD 0

/-- From src: `const decimalShift = Math.log10(1 / tolerance)`, idealized over
the reals.  Note there is no `Math.ceil` around the logarithm. -/
noncomputable def decimalShift (tolerance : ℝ) : ℝ :=
  Real.logb 10 (1 / tolerance)

/-- From src: `const shiftMultiplier = Math.pow(10, decimalShift)`, idealized
over the reals. -/
noncomputable def shiftMultiplier (tolerance : ℝ) : ℝ :=
  (10 : ℝ) ^ decimalShift tolerance

/-- Modelled from the spec: the multiplier the spec describes, `10 ^
ceil(log10(1/ε))`, for comparison with the code's `shiftMultiplier`. -/
noncomputable def specCeilMultiplier (tolerance : ℝ) : ℝ :=
  (10 : ℝ) ^ (⌈decimalShift tolerance⌉ : ℤ)

/-!
The halfedge data structure.  Entities are kept in arenas (lists indexed by
numeric handles); the three `Set` collections of the JS class iterate in
insertion order, which the append-only lists reproduce.  JS object identity
corresponds to handle equality.
-/

/-- A vertex record: `id` (set by the builder to the canonical position
index), `position`, and the optional outgoing-halfedge reference. -/
structure VertexRec where
  id : ℕ
  position : Vec3
  halfedge : Option ℕ
deriving DecidableEq, Repr

/-- A halfedge record: origin vertex handle, `twin` handle, and the
`next`/`prev`/`face` fields, absent until set by `addFace` (the spec's §4.3:
`addEdge` "does not set next/prev/face"). -/
structure HalfedgeRec where
  vertex : ℕ
  twin : ℕ
  next : Option ℕ
  prev : Option ℕ
  face : Option ℕ
deriving DecidableEq, Repr

instance : Inhabited HalfedgeRec := ⟨⟨0, 0, none, none, none⟩⟩

/-- A face record: `id` (set by the builder to the face's input index) and a
reference to one bounding halfedge. -/
structure FaceRec where
  id : ℕ
  halfedge : ℕ
deriving DecidableEq, Repr

/-- From src: the `HalfedgeDS` entity store with its three collections. -/
structure HalfedgeDS where
  vertices : List VertexRec
  halfedges : List HalfedgeRec
  faces : List FaceRec
deriving DecidableEq, Repr

/-- From src: `clear()` empties all three collections. -/
def HalfedgeDS.clear (_ds : HalfedgeDS) : HalfedgeDS :=
  ⟨[], [], []⟩

/-- The JS error values relevant to the build.  `error` is the base `Error`
class (the constructor the code's `throw new Error(...)` uses); the other two
constructors stand for the distinct error types named by the spec's taxonomy
(§7), so that "is of type `MissingAttributeError`" is expressible. -/
inductive JSError where
  | error (msg : String)
  | missingAttributeError (msg : String)
  | nonManifoldConstructionError (msg : String)
deriving DecidableEq, Repr

/-- Modelled from the spec: `addVertex(position)` (src/operations/addVertex.ts
is absent from the given sources): creates and stores a new Vertex with no
outgoing halfedge and returns it.  The id starts at 0; the builder assigns
`v.id = i` right after the call, modelled by `setVertexId`. -/
def addVertex (ds : HalfedgeDS) (position : Vec3) : HalfedgeDS × ℕ :=
  ({ ds with vertices := ds.vertices ++ [⟨0, position, none⟩] }, ds.vertices.length)

/-- From src: the builder's `v.id = i` assignment after `addVertex`. -/
def setVertexId (ds : HalfedgeDS) (v i : ℕ) : HalfedgeDS :=
  match ds.vertices.get? v with
  | some vr => { ds with vertices := ds.vertices.set v { vr with id := i } }
  | none => ds

/-- Helper of `addEdge`: lazily assign the vertex's outgoing-halfedge
reference if unset. -/
def lazySetHalfedge (vs : List VertexRec) (v h : ℕ) : List VertexRec :=
  match vs.get? v with
  | some vr => if vr.halfedge = none then vs.set v { vr with halfedge := some h } else vs
  | none => vs

/-- Modelled from the spec: `addEdge(v1, v2)` (src/operations/addEdge.ts is
absent from the given sources): creates a twin pair of halfedges `h1` (origin
`v1`) and `h2` (origin `v2`) with `h1.twin = h2`, `h2.twin = h1`, lazily
assigns each vertex's outgoing-halfedge reference if unset, and returns `h1`;
it does not set `next`/`prev`/`face`. -/
def addEdge (ds : HalfedgeDS) (v1 v2 : ℕ) : HalfedgeDS × ℕ :=
  let h1 := ds.halfedges.length
  let h2 := h1 + 1
  let vs := lazySetHalfedge (lazySetHalfedge ds.vertices v1 h1) v2 h2
  ({ ds with
      vertices := vs
      halfedges := ds.halfedges ++ [⟨v1, h2, none, none, none⟩, ⟨v2, h1, none, none, none⟩] },
    h1)

/-- Helper of `addFace`: wire `next`/`prev` around the cyclic halfedge list
and set `face` on every halfedge of the loop. -/
def wireLoop (hes : List HalfedgeRec) (loop : List ℕ) (fid : ℕ) : List HalfedgeRec :=
  (List.range loop.length).foldl
    (fun acc idx =>
      let h := loop.getD idx 0
      match acc.get? h with
      | some hr =>
        acc.set h
          { hr with
              next := some (loop.getD ((idx + 1) % loop.length) 0)
              prev := some (loop.getD ((idx + loop.length - 1) % loop.length) 0)
              face := some fid }
      | none => acc)
    hes

/-- Modelled from the spec: `addFace(loopHalfedges)` (src/operations/addFace.ts
is absent from the given sources): fails with a `NonManifoldConstructionError`
if any halfedge of the loop already has a `face` (checked before any
mutation); otherwise wires `next`/`prev` around the cycle, creates a Face
referencing the loop's first halfedge, sets `face` on every loop halfedge and
returns the face. -/
def addFace (ds : HalfedgeDS) (loop : List ℕ) : Except JSError (HalfedgeDS × ℕ) :=
  if loop.any (fun h => ((ds.halfedges.get? h).bind (·.face)).isSome) then
    .error (.nonManifoldConstructionError "halfedge already has a face")
  else
    let fid := ds.faces.length
    .ok ({ ds with
            halfedges := wireLoop ds.halfedges loop fid
            faces := ds.faces ++ [⟨0, loop.headD 0⟩] },
      fid)

/-- From src: the builder's `face.id = faceIndex` assignment after `addFace`. -/
def setFaceId (ds : HalfedgeDS) (f i : ℕ) : HalfedgeDS :=
  match ds.faces.get? f with
  | some fr => { ds with faces := ds.faces.set f { fr with id := i } }
  | none => ds

/-- Model of `THREE.BufferGeometry` as consumed by `buildFromGeometry`: an
optional position attribute (a list of 3-component vectors; `count` is the
list length) and an optional index buffer. -/
structure BufferGeometry where
  position : Option (List Vec3)
  index : Option (List ℕ)
deriving DecidableEq, Repr

/-- Build-time context: the position buffer, the optional index buffer, and
the canonical-index array computed by the Vertex Merger. -/
structure BuildCtx where
  positions : List Vec3
  index : Option (List ℕ)
  indexVertexArray : List ℕ
deriving DecidableEq, Repr

/-- From src: `getVertexIndex(bufferIndex)` — without an index buffer, read
`indexVertexArray[bufferIndex]`; with one, read
`indexVertexArray[indexBuffer.array[bufferIndex]]`.  An out-of-range JS read
yields `undefined`; the model returns the default 0 there, and the access
bookkeeping for such reads is handled separately (`buildAccesses` below). -/
def getVertexIndex (ctx : BuildCtx) (bufferIndex : ℕ) : ℕ :=
  match ctx.index with
  | none => ctx.indexVertexArray.getD bufferIndex 0
  | some ib => ctx.indexVertexArray.getD (ib.getD bufferIndex 0) 0

/-- The builder's per-call mutable state: the store plus the two build-time
maps.  The halfedge map is keyed in the code by the string `i1 + '-' + i2`;
since `'-'` never occurs in the decimal rendering of a natural number, that
string determines and is determined by the ordered pair `(i1, i2)`, which the
model uses as the key.  (Contrast the vertex hash of
`computeVerticesIndexArray`, which concatenates with no separator and is
therefore modelled as the raw string.) -/
structure BuildState where
  ds : HalfedgeDS
  halfedgeMap : List ((ℕ × ℕ) × ℕ)
  vertexMap : List (ℕ × ℕ)
deriving DecidableEq, Repr

/-- From src: resolve a source/destination vertex of a side — look up the
canonical index in `vertexMap`, else `addVertex`, set its id, memoize. -/
def resolveVertex (ctx : BuildCtx) (st : BuildState) (i1 : ℕ) : BuildState × ℕ :=
  match jsGet st.vertexMap i1 with
  | some v => (st, v)
  | none =>
    let pos := ctx.positions.getD i1 default
    let (ds1, v) := addVertex st.ds pos
    let ds2 := setVertexId ds1 v i1
    ({ st with ds := ds2, vertexMap := jsSet st.vertexMap i1 v }, v)

/-- From src: resolve the halfedge of a side — look up the directed pair
`(i1, i2)` in `halfedgeMap`; on a miss, `addEdge(v1, v2)` and register the
forward key to `h1` and the reverse key to `h2 = h1.twin` (in that order:
when `i1 = i2` the two keys coincide and the second set wins). -/
def resolveHalfedge (st : BuildState) (i1 i2 v1 v2 : ℕ) : BuildState × ℕ :=
  match jsGet st.halfedgeMap (i1, i2) with
  | some h1 => (st, h1)
  | none =>
    let (ds1, h1) := addEdge st.ds v1 v2
    let h2 := (ds1.halfedges.getD h1 default).twin
    ({ st with
        ds := ds1
        halfedgeMap := jsSet (jsSet st.halfedgeMap (i1, i2) h1) (i2, i1) h2 },
      h1)

/-- From src: the body of the builder's inner loop for side `i` of face
`faceIndex`: resolve both endpoint vertices and the side's halfedge. -/
def buildSide (ctx : BuildCtx) (st : BuildState) (faceIndex i : ℕ) : BuildState × ℕ :=
  let i1 := getVertexIndex ctx (faceIndex * 3 + i)
  let (st1, v1) := resolveVertex ctx st i1
  let i2 := getVertexIndex ctx (faceIndex * 3 + (i + 1) % 3)
  let (st2, v2) := resolveVertex ctx st1 i2
  resolveHalfedge st2 i1 i2 v1 v2

/-- From src: one iteration of the builder's face loop: resolve the three
sides (`loopHalfedges`), call `addFace`, tag the face with its input index.
A JS `throw` from `addFace` leaves `this` (the store) as already mutated; the
model therefore returns the state at the moment of the error together with
the error, rather than discarding it. -/
def buildFaceStep (ctx : BuildCtx) (st : BuildState) (faceIndex : ℕ) :
    BuildState × Option JSError :=
  let r1 := buildSide ctx st faceIndex 0
  let r2 := buildSide ctx r1.1 faceIndex 1
  let r3 := buildSide ctx r2.1 faceIndex 2
  match addFace r3.1.ds [r1.2, r2.2, r3.2] with
  | .error e => (r3.1, some e)
  | .ok r => ({ r3.1 with ds := setFaceId r.1 r.2 faceIndex }, none)

/-- From src: the builder's face loop over the listed face indices.  A JS
`throw` aborts the loop; the fold models this by carrying the state at the
error unchanged through the remaining (never-executed) iterations, which
yields the same final state/error pair. -/
def buildFaces (ctx : BuildCtx) (fs : List ℕ) (st : BuildState) :
    BuildState × Option JSError :=
  fs.foldl
    (fun acc faceIndex =>
      match acc with
      | (st0, some e) => (st0, some e)
      | (st0, none) => buildFaceStep ctx st0 faceIndex)
    (st, none)

/-- From src: `buildFromGeometry(geometry)`.  Clears the store, throws a plain
`Error` when the position attribute is missing, computes the canonical-index
array, and runs the face loop.  `tolerance` stands for `this.options.tolerance`.
The loop bound in the code is `faceIndex < count / 3` with JS real division,
so the number of iterations is `⌈count / 3⌉`, here `(count + 2) / 3` in
natural division.  The returned pair is the store as left by the call (the JS
method mutates `this`) and the error thrown, if any. -/
def buildFromGeometry (ds : HalfedgeDS) (geom : BufferGeometry) (tolerance : ℚ) :
    HalfedgeDS × Option JSError :=
  let ds0 := HalfedgeDS.clear ds
  match geom.position with
  | none => (ds0, some (.error "BufferGeometry does not have a position BufferAttribute."))
  | some positions =>
    let indexVertexArray := computeVerticesIndexArray positions tolerance
    let nbOfFaces :=
      match geom.index with
      | none => (positions.length + 2) / 3
      | some ib => (ib.length + 2) / 3
    let ctx : BuildCtx := ⟨positions, geom.index, indexVertexArray⟩
    let (st, err) := buildFaces ctx (List.range nbOfFaces) ⟨ds0, [], []⟩
    (st.ds, err)

/-- From src: the count whose quotient by 3 bounds the face loop —
`indexBuffer.count` when the geometry is indexed, else `positions.count`. -/
def geometryCount (positions : List Vec3) (index : Option (List ℕ)) : ℕ :=
  match index with
  | none => positions.length
  | some ib => ib.length

/-- The build context `buildFromGeometry` constructs when the position
attribute is present. -/
def geometryCtx (positions : List Vec3) (index : Option (List ℕ)) (tol : ℚ) : BuildCtx :=
  ⟨positions, index, computeVerticesIndexArray positions tol⟩

/-- One buffer access performed by the face loop of `buildFromGeometry`:
a read of the canonical-index array, of the index buffer, or of the position
buffer at a vertex index (`fromBufferAttribute`). -/
inductive BufAccess where
  | indexArr (k : ℕ)
  | indexBuf (k : ℕ)
  | posBuf (v : ℕ)
deriving DecidableEq, Repr

/-- Whether the access stays inside the corresponding buffer. -/
def BufAccess.inBounds (ctx : BuildCtx) : BufAccess → Bool
  | .indexArr k => k < ctx.indexVertexArray.length
  | .indexBuf k => k < (ctx.index.getD []).length
  | .posBuf v => v < ctx.positions.length

/-- The reads `getVertexIndex(bufferIndex)` performs (mirroring its two
branches), followed by the position-buffer read at the vertex index it
resolves.  In the code that last read happens only when the canonical index is
not yet memoized in `vertexMap`; listing it unconditionally yields a superset
of the accesses actually performed, so an all-in-bounds result covers every
actual read, while the out-of-bounds witnesses below use only the
unconditional reads. -/
def sideAccesses (ctx : BuildCtx) (k : ℕ) : List BufAccess :=
  match ctx.index with
  | none => [.indexArr k, .posBuf (ctx.indexVertexArray.getD k 0)]
  | some ib => [.indexBuf k, .indexArr (ib.getD k 0),
      .posBuf (ctx.indexVertexArray.getD (ib.getD k 0) 0)]

/-- All buffer accesses of the face loop, face by face and side by side (side
`i` reads its origin at buffer index `faceIndex*3 + i` and its destination at
`faceIndex*3 + (i+1)%3`). -/
def buildAccesses (ctx : BuildCtx) (nbOfFaces : ℕ) : List BufAccess :=
  (List.range nbOfFaces).flatMap (fun faceIndex =>
    (List.range 3).flatMap (fun i =>
      sideAccesses ctx (faceIndex * 3 + i) ++ sideAccesses ctx (faceIndex * 3 + (i + 1) % 3)))

/-!
The traversal layer, for the `loops()` partition claim.  The claim quantifies
over stores satisfying the loop-closure invariant, so the halfedge collection
is abstracted to a list `halfedges : List α` (the `Set` in iteration order)
and the `next` references to a function `next : α → α`, total on loop-closed
stores.
-/

/-- Modelled from the spec: `Halfedge.nextLoop()` (src/core/Halfedge.ts is
absent from the given sources): the generator yields the start halfedge, then
repeated `next` steps until the start is reached again.  `fuel` bounds the
traversal so the model is total; under the loop-closure invariant a fuel of
the store's size closes every loop (proved below). -/
def nextLoopGo {α : Type} [DecidableEq α] (next : α → α) (start : α) : ℕ → α → List α
  | 0, _ => []
  | fuel + 1, cur =>
    cur :: (if next cur = start then [] else nextLoopGo next start fuel (next cur))

/-- `nextLoop()` started at `start`. -/
def nextLoop {α : Type} [DecidableEq α] (next : α → α) (fuel : ℕ) (start : α) : List α :=
  nextLoopGo next start fuel start

/-- From src: the loop of `loops()`: visit halfedges in store order; skip any
halfedge already handled, otherwise mark its whole next-loop as handled and
record the halfedge as the discovered loop's representative. -/
def loopsGo {α : Type} [DecidableEq α] (next : α → α) (fuel : ℕ) :
    List α → List α → Finset α → List α
  | [], acc, _ => acc
  | h :: rest, acc, handled =>
    if h ∈ handled then loopsGo next fuel rest acc handled
    else loopsGo next fuel rest (acc ++ [h]) (handled ∪ (nextLoop next fuel h).toFinset)

/-- From src: `loops()` over a store whose halfedge collection iterates as
`halfedges` and whose `next` references are `next`. -/
def loops {α : Type} [DecidableEq α] (next : α → α) (halfedges : List α) : List α :=
  loopsGo next halfedges.length halfedges [] ∅


theorem firstOcc_append (m : ℚ) (k : String) (l1 l2 : List Vec3) :
    firstOcc m k (l1 ++ l2) =
      match firstOcc m k l1 with
      | some j => some j
      | none => (firstOcc m k l2).map (· + l1.length) := by
  induction l1 with
  | nil =>
    simp [firstOcc]
  | cons v t ih =>
    by_cases hv : vertexHash m v = k
    · simp [firstOcc, hv]
    · have hL : firstOcc m k (v :: t ++ l2) = (firstOcc m k (t ++ l2)).map (· + 1) := by
        rw [List.cons_append]
        simp only [firstOcc, hv, if_false]
      have hR : firstOcc m k (v :: t) = (firstOcc m k t).map (· + 1) := by
        simp only [firstOcc, hv, if_false]
      rw [hL, hR, ih]
      cases h : firstOcc m k t with
      | some j => simp
      | none =>
        simp [Option.map_map, Function.comp_def, List.length_cons,
          Nat.add_assoc, Nat.add_comm 1]

theorem firstOcc_le_of_hash_eq (m : ℚ) (k : String) (vs : List Vec3) (i : ℕ)
    (hi : i < vs.length) (hk : vertexHash m (vs.getD i default) = k) :
    ∃ j, j ≤ i ∧ firstOcc m k vs = some j := by
  induction vs generalizing i with
  | nil => simp at hi
  | cons v t ih =>
    by_cases hv : vertexHash m v = k
    · exact ⟨0, Nat.zero_le i, by simp [firstOcc, hv]⟩
    · cases i with
      | zero => simp at hk; exact absurd hk hv
      | succ i' =>
        obtain ⟨j, hj, hfo⟩ := ih i' (by simpa using hi) (by simpa using hk)
        exact ⟨j + 1, Nat.succ_le_succ hj, by simp [firstOcc, hv, hfo]⟩

theorem firstOcc_hash (m : ℚ) (k : String) (vs : List Vec3) (j : ℕ)
    (h : firstOcc m k vs = some j) :
    j < vs.length ∧ vertexHash m (vs.getD j default) = k := by
  induction vs generalizing j with
  | nil => simp [firstOcc] at h
  | cons v t ih =>
    by_cases hv : vertexHash m v = k
    · simp [firstOcc, hv] at h
      subst h
      simpa using hv
    · simp [firstOcc, hv] at h
      obtain ⟨j', hj', rfl⟩ := h
      obtain ⟨hlt, hh⟩ := ih j' hj'
      exact ⟨by simpa using Nat.succ_lt_succ hlt, by simpa using hh⟩

theorem canonIdx_eq_of_firstOcc (m : ℚ) (vs : List Vec3) (i j : ℕ)
    (hfo : firstOcc m (vertexHash m (vs.getD i default)) vs = some j) :
    canonIdx m vs i = j := by
  unfold canonIdx
  rw [hfo]
  rfl

theorem canonIdx_le (m : ℚ) (vs : List Vec3) (i : ℕ) (hi : i < vs.length) :
    canonIdx m vs i ≤ i := by
  obtain ⟨j, hj, hfo⟩ := firstOcc_le_of_hash_eq m (vertexHash m (vs.getD i default)) vs i hi rfl
  rw [canonIdx_eq_of_firstOcc m vs i j hfo]
  exact hj

theorem canonIdx_hash (m : ℚ) (vs : List Vec3) (i : ℕ) (hi : i < vs.length) :
    vertexHash m (vs.getD (canonIdx m vs i) default) = vertexHash m (vs.getD i default) := by
  obtain ⟨j, _, hfo⟩ := firstOcc_le_of_hash_eq m (vertexHash m (vs.getD i default)) vs i hi rfl
  rw [canonIdx_eq_of_firstOcc m vs i j hfo]
  exact (firstOcc_hash m _ vs j hfo).2

theorem canonIdx_idem (m : ℚ) (vs : List Vec3) (i : ℕ) (hi : i < vs.length) :
    canonIdx m vs (canonIdx m vs i) = canonIdx m vs i := by
  obtain ⟨j, _, hfo⟩ := firstOcc_le_of_hash_eq m (vertexHash m (vs.getD i default)) vs i hi rfl
  have hj := firstOcc_hash m _ vs j hfo
  rw [canonIdx_eq_of_firstOcc m vs i j hfo]
  apply canonIdx_eq_of_firstOcc
  rw [hj.2]
  exact hfo

theorem cviaGo_eq (m : ℚ) (full : List Vec3) (d : List Vec3) :
    ∀ (i : ℕ) (hm : List (String × ℕ)),
      full.drop i = d →
      (∀ k, jsGet hm k = firstOcc m k (full.take i)) →
      cviaGo m d i hm
        = (List.range (full.length - i)).map (fun t => canonIdx m full (i + t)) := by
  induction d with
  | nil =>
    intro i hm hdrop _
    have hlen : full.length - i = 0 := by
      rw [← List.length_drop, hdrop]
      rfl
    simp [cviaGo, hlen]
  | cons v rest ih =>
    intro i hm hdrop hinv
    have hi : i < full.length := by
      by_contra hle
      push_neg at hle
      rw [List.drop_eq_nil_of_le hle] at hdrop
      exact absurd hdrop (by simp)
    have hcons : v :: rest = full[i] :: full.drop (i + 1) := by
      rw [← hdrop]
      exact List.drop_eq_getElem_cons hi
    have hv : full.getD i default = v := by
      rw [List.getD_eq_getElem full default hi]
      injection hcons with h1 _
      exact h1.symm
    have hdrop' : full.drop (i + 1) = rest := by
      injection hcons with _ h2
      exact h2.symm
    have htake : full.take (i + 1) = full.take i ++ [v] := by
      rw [List.take_succ, List.getElem?_eq_getElem hi]
      rw [List.getD_eq_getElem full default hi] at hv
      rw [hv]
      rfl
    have hsub : full.length - i = (full.length - (i + 1)) + 1 := by omega
    have hrange : (List.range (full.length - i)).map (fun t => canonIdx m full (i + t))
        = canonIdx m full i ::
          (List.range (full.length - (i + 1))).map (fun t => canonIdx m full (i + 1 + t)) := by
      rw [hsub, List.range_succ_eq_map]
      simp only [List.map_cons, Nat.add_zero, List.map_map]
      congr 1
      apply List.map_congr_left
      intro t _
      simp only [Function.comp_def]
      congr 1
      omega
    have hfo_full : ∀ k, firstOcc m k full =
        match firstOcc m k (full.take i) with
        | some j => some j
        | none => (firstOcc m k (full.drop i)).map (· + (full.take i).length) := by
      intro k
      conv =>
        lhs
        rw [← List.take_append_drop i full]
      exact firstOcc_append m k (full.take i) (full.drop i)
    have htklen : (full.take i).length = i :=
      List.length_take_of_le (Nat.le_of_lt hi)
    cases hfind : jsGet hm (vertexHash m v) with
    | some vi =>
      have hfull : firstOcc m (vertexHash m v) full = some vi := by
        rw [hfo_full, ← hinv (vertexHash m v), hfind]
      have hcanon : canonIdx m full i = vi := by
        apply canonIdx_eq_of_firstOcc
        rw [hv]
        exact hfull
      have hinv' : ∀ k, jsGet hm k = firstOcc m k (full.take (i + 1)) := by
        intro k
        rw [htake, firstOcc_append]
        cases hpre : firstOcc m k (full.take i) with
        | some j => rw [hinv k, hpre]
        | none =>
          have hkv : vertexHash m v ≠ k := by
            intro hkk
            rw [← hkk] at hpre
            rw [hinv (vertexHash m v), hpre] at hfind
            exact absurd hfind (by simp)
          rw [hinv k, hpre]
          simp [firstOcc, hkv]
      simp only [cviaGo, hfind]
      rw [ih (i + 1) hm hdrop' hinv', hrange, hcanon]
    | none =>
      have hpre : firstOcc m (vertexHash m v) (full.take i) = none := by
        rw [← hinv (vertexHash m v)]
        exact hfind
      have hfull : firstOcc m (vertexHash m v) full = some i := by
        rw [hfo_full, hpre, hdrop, htklen]
        simp [firstOcc]
      have hcanon : canonIdx m full i = i := by
        apply canonIdx_eq_of_firstOcc
        rw [hv]
        exact hfull
      have hinv' : ∀ k,
          jsGet (jsSet hm (vertexHash m v) i) k = firstOcc m k (full.take (i + 1)) := by
        intro k
        rw [htake, firstOcc_append]
        by_cases hkv : vertexHash m v = k
        · subst hkv
          rw [hpre, htklen]
          simp [jsGet, jsSet, firstOcc]
        · have hskip : jsGet (jsSet hm (vertexHash m v) i) k = jsGet hm k := by
            simp [jsGet, jsSet, List.find?, hkv]
          rw [hskip, hinv k]
          cases hpre2 : firstOcc m k (full.take i) with
          | some j => rfl
          | none => simp [firstOcc, hkv]
      simp only [cviaGo, hfind]
      rw [ih (i + 1) (jsSet hm (vertexHash m v) i) hdrop' hinv', hrange, hcanon]

/-- `computeVerticesIndexArray` maps each position index to the first index
with an equal hash string. -/
theorem computeVerticesIndexArray_eq (positions : List Vec3) (tol : ℚ) :
    computeVerticesIndexArray positions tol
      = (List.range positions.length).map (canonIdx (1 / tol) positions) := by
  have := cviaGo_eq (1 / tol) positions positions 0 [] (by simp) (by intro k; simp [jsGet, firstOcc])
  simpa [computeVerticesIndexArray] using this

theorem getD_map_range (f : ℕ → ℕ) (n i : ℕ) (h : i < n) :
    ((List.range n).map f).getD i 0 = f i := by
  rw [List.getD_eq_getElem?_getD]
  simp [List.getElem?_map, List.getElem?_range h]

theorem computeVerticesIndexArray_length (positions : List Vec3) (tol : ℚ) :
    (computeVerticesIndexArray positions tol).length = positions.length := by
  simp [computeVerticesIndexArray_eq]

theorem computeVerticesIndexArray_getD (positions : List Vec3) (tol : ℚ) (i : ℕ)
    (hi : i < positions.length) :
    (computeVerticesIndexArray positions tol).getD i 0 = canonIdx (1 / tol) positions i := by
  rw [computeVerticesIndexArray_eq]
  exact getD_map_range _ _ _ hi

/-- C10: the canonical-index mapping has the same length as the input position
list, and is an idempotent retraction onto first occurrences: every entry is at
most its own index, and applying the mapping to one of its own entries is the
identity. -/
theorem claim_C10_retraction (positions : List Vec3) (tol : ℚ) (i : ℕ)
    (hi : i < (computeVerticesIndexArray positions tol).length) :
    (computeVerticesIndexArray positions tol).length = positions.length ∧
    (computeVerticesIndexArray positions tol).getD i 0 ≤ i ∧
    (computeVerticesIndexArray positions tol).getD
        ((computeVerticesIndexArray positions tol).getD i 0) 0
      = (computeVerticesIndexArray positions tol).getD i 0 := by
  have hlen := computeVerticesIndexArray_length positions tol
  have hi' : i < positions.length := hlen ▸ hi
  have h1 := computeVerticesIndexArray_getD positions tol i hi'
  have hle := canonIdx_le (1 / tol) positions i hi'
  have hlt : canonIdx (1 / tol) positions i < positions.length := lt_of_le_of_lt hle hi'
  have h2 := computeVerticesIndexArray_getD positions tol _ hlt
  refine ⟨hlen, ?_, ?_⟩
  · rw [h1]
    exact hle
  · rw [h1, h2]
    exact canonIdx_idem (1 / tol) positions i hi'

theorem claim_C10_retraction_witness :
    1 < (computeVerticesIndexArray [⟨0, 0, 0⟩, ⟨0, 0, 0⟩, ⟨1, 0, 0⟩] 1).length ∧
    ((computeVerticesIndexArray [⟨0, 0, 0⟩, ⟨0, 0, 0⟩, ⟨1, 0, 0⟩] 1).length
        = ([⟨0, 0, 0⟩, ⟨0, 0, 0⟩, ⟨1, 0, 0⟩] : List Vec3).length ∧
      (computeVerticesIndexArray [⟨0, 0, 0⟩, ⟨0, 0, 0⟩, ⟨1, 0, 0⟩] 1).getD 1 0 ≤ 1 ∧
      (computeVerticesIndexArray [⟨0, 0, 0⟩, ⟨0, 0, 0⟩, ⟨1, 0, 0⟩] 1).getD
          ((computeVerticesIndexArray [⟨0, 0, 0⟩, ⟨0, 0, 0⟩, ⟨1, 0, 0⟩] 1).getD 1 0) 0
        = (computeVerticesIndexArray [⟨0, 0, 0⟩, ⟨0, 0, 0⟩, ⟨1, 0, 0⟩] 1).getD 1 0) :=
  ⟨by with_unfolding_all decide,
    claim_C10_retraction [⟨0, 0, 0⟩, ⟨0, 0, 0⟩, ⟨1, 0, 0⟩] 1 1 (by with_unfolding_all decide)⟩

/-- C1 (failing input): at tolerance 1 (multiplier 1) the positions (1,23,4)
and (12,3,4) have different per-axis quantized triples, yet their hash strings
— built by concatenating the rounded components with no separator — are both
"1234", so the second position is mapped to canonical index 0.  The claim
requires its canonical index to be 1, the first position in input order whose
quantized components compare equal to its own. -/
theorem claim_C1_hash_collision :
    quantTriple (1 / 1) ⟨1, 23, 4⟩ ≠ quantTriple (1 / 1) ⟨12, 3, 4⟩ ∧
    vertexHash (1 / 1) ⟨1, 23, 4⟩ = vertexHash (1 / 1) ⟨12, 3, 4⟩ ∧
    computeVerticesIndexArray [⟨1, 23, 4⟩, ⟨12, 3, 4⟩] 1 = [0, 0] := by
  with_unfolding_all decide

/-- C6 (failing input): the two positions (11,1,0) and (1,11,0) quantize to
different per-axis triples at tolerance 1, so the list is free of
near-duplicates, yet the returned mapping is [0, 0], not the identity [0, 1]:
both hash strings are "1110" because the components are concatenated without a
separator. -/
theorem claim_C6_not_identity :
    quantTriple (1 / 1) ⟨11, 1, 0⟩ ≠ quantTriple (1 / 1) ⟨1, 11, 0⟩ ∧
    computeVerticesIndexArray [⟨11, 1, 0⟩, ⟨1, 11, 0⟩] 1 = [0, 0] ∧
    computeVerticesIndexArray [⟨11, 1, 0⟩, ⟨1, 11, 0⟩] 1 ≠ [0, 1] := by
  with_unfolding_all decide

/-- C7 (counterexample): at tolerance 1/2 the code's multiplier is
`10 ^ log10 2 = 2`, while the spec's formula `10 ^ ceil(log10 2)` gives 10;
the code applies no ceiling to the exponent. -/
theorem claim_C7_ceil_counterexample :
    shiftMultiplier (1 / 2) = 2 ∧ specCeilMultiplier (1 / 2) = 10 ∧ (2 : ℝ) ≠ 10 := by
  have hshift : decimalShift (1 / 2) = Real.logb 10 2 := by
    unfold decimalShift
    norm_num
  refine ⟨?_, ?_, by norm_num⟩
  · unfold shiftMultiplier
    rw [hshift]
    exact Real.rpow_logb (by norm_num) (by norm_num) (by norm_num)
  · unfold specCeilMultiplier
    rw [hshift]
    have hceil : ⌈Real.logb 10 2⌉ = 1 := by
      rw [Int.ceil_eq_iff]
      constructor
      · push_cast
        have := Real.logb_pos (b := 10) (x := 2) (by norm_num) (by norm_num)
        linarith
      · push_cast
        have hlt : Real.logb 10 2 < Real.logb 10 10 :=
          Real.logb_lt_logb (by norm_num) (by norm_num) (by norm_num)
        have hself : Real.logb 10 10 = 1 := Real.logb_self_eq_one (by norm_num)
        linarith
    rw [hceil]
    norm_num

/-- C7 (amended): the quantization multiplier the code derives is
`10 ^ log10(1/ε)` with no ceiling applied, which in exact arithmetic equals
`1/ε` for every positive tolerance ε. -/
theorem claim_C7_multiplier (tolerance : ℝ) (h : 0 < tolerance) :
    shiftMultiplier tolerance = 1 / tolerance := by
  unfold shiftMultiplier decimalShift
  exact Real.rpow_logb (by norm_num) (by norm_num) (by positivity)

theorem claim_C7_multiplier_witness :
    (0 : ℝ) < 2 ∧ shiftMultiplier 2 = 1 / 2 :=
  ⟨by norm_num, claim_C7_multiplier 2 (by norm_num)⟩

/-- C8: `buildFromGeometry` clears the store on entry, so its entire result —
the rebuilt store, with entity counts, connectivity and identifiers, and the
error if any — is a function of the geometry and tolerance alone: two calls
with identical input agree exactly whatever the stores' prior contents. -/
theorem claim_C8_deterministic_from_scratch (ds1 ds2 : HalfedgeDS)
    (geom : BufferGeometry) (tol : ℚ) :
    buildFromGeometry ds1 geom tol = buildFromGeometry ds2 geom tol := rfl

theorem build_missing_position (ds : HalfedgeDS) (geom : BufferGeometry) (tol : ℚ)
    (h : geom.position = none) :
    buildFromGeometry ds geom tol
      = (⟨[], [], []⟩,
          some (.error "BufferGeometry does not have a position BufferAttribute.")) := by
  unfold buildFromGeometry
  rw [h]
  rfl

/-- C4 (amended): when `buildFromGeometry` fails because the position
attribute is missing, the store is left empty — it was cleared on entry and
nothing was added before the throw. -/
theorem claim_C4_missing_attribute_clears (ds : HalfedgeDS) (geom : BufferGeometry)
    (tol : ℚ) (h : geom.position = none) :
    buildFromGeometry ds geom tol
      = (⟨[], [], []⟩,
          some (.error "BufferGeometry does not have a position BufferAttribute.")) :=
  build_missing_position ds geom tol h

theorem claim_C4_missing_attribute_clears_witness :
    (⟨none, none⟩ : BufferGeometry).position = none ∧
    buildFromGeometry ⟨[], [], []⟩ ⟨none, none⟩ 1
      = (⟨[], [], []⟩,
          some (.error "BufferGeometry does not have a position BufferAttribute.")) :=
  ⟨rfl, claim_C4_missing_attribute_clears ⟨[], [], []⟩ ⟨none, none⟩ 1 rfl⟩

set_option maxHeartbeats 4000000 in
/-- C4 (counterexample): building the same triangle twice aborts in `addFace`
at the second face — the reused halfedge already has a face — and the call
then leaves 3 vertices, 6 halfedges and 1 face in the store: a mid-build
failure does not clear the collections (the code clears only on entry). -/
theorem claim_C4_not_cleared_on_failure :
    (buildFromGeometry ⟨[], [], []⟩
        ⟨some [⟨0, 0, 0⟩, ⟨1, 0, 0⟩, ⟨0, 1, 0⟩, ⟨0, 0, 0⟩, ⟨1, 0, 0⟩, ⟨0, 1, 0⟩], none⟩ 1).2
      = some (.nonManifoldConstructionError "halfedge already has a face") ∧
    (buildFromGeometry ⟨[], [], []⟩
        ⟨some [⟨0, 0, 0⟩, ⟨1, 0, 0⟩, ⟨0, 1, 0⟩, ⟨0, 0, 0⟩, ⟨1, 0, 0⟩, ⟨0, 1, 0⟩], none⟩
        1).1.vertices.length = 3 ∧
    (buildFromGeometry ⟨[], [], []⟩
        ⟨some [⟨0, 0, 0⟩, ⟨1, 0, 0⟩, ⟨0, 1, 0⟩, ⟨0, 0, 0⟩, ⟨1, 0, 0⟩, ⟨0, 1, 0⟩], none⟩
        1).1.halfedges.length = 6 ∧
    (buildFromGeometry ⟨[], [], []⟩
        ⟨some [⟨0, 0, 0⟩, ⟨1, 0, 0⟩, ⟨0, 1, 0⟩, ⟨0, 0, 0⟩, ⟨1, 0, 0⟩, ⟨0, 1, 0⟩], none⟩
        1).1.faces.length = 1 := by
  with_unfolding_all decide

theorem addFace_error_shape (ds : HalfedgeDS) (loop : List ℕ) (e : JSError)
    (h : addFace ds loop = .error e) :
    e = .nonManifoldConstructionError "halfedge already has a face" := by
  unfold addFace at h
  split at h
  · exact (Except.error.inj h).symm
  · exact absurd h (by simp)

theorem jsGet_set_eq {K V : Type} [DecidableEq K] (m : List (K × V)) (k : K) (v : V) :
    jsGet (jsSet m k v) k = some v := by
  simp [jsGet, jsSet]

theorem jsGet_set_ne {K V : Type} [DecidableEq K] (m : List (K × V)) (k k' : K) (v : V)
    (h : k' ≠ k) : jsGet (jsSet m k v) k' = jsGet m k' := by
  simp only [jsGet, jsSet]
  rw [List.find?_cons_of_neg]
  simp only [decide_eq_true_eq]
  exact Ne.symm h

theorem getD_append_self {α : Type} [Inhabited α] (l : List α) (a b : α) :
    (l ++ [a, b]).getD l.length default = a := by
  rw [List.getD_eq_getElem?_getD, List.getElem?_append_right (le_refl l.length)]
  simp

theorem getD_append_succ {α : Type} [Inhabited α] (l : List α) (a b : α) :
    (l ++ [a, b]).getD (l.length + 1) default = b := by
  rw [List.getD_eq_getElem?_getD,
    List.getElem?_append_right (by omega : l.length ≤ l.length + 1)]
  have h1 : l.length + 1 - l.length = 1 := by omega
  rw [h1]
  simp

/-- C2 (amended): for a side with canonical indices `i1 ≠ i2`: if the reuse
map has an entry for `(i1, i2)`, that halfedge is returned and nothing is
allocated (the state is unchanged); if not, a twin pair is created via
`addEdge` (two new halfedges, mutually twinned) and the map gains the forward
key `(i1, i2) ↦ h1` and the reverse key `(i2, i1) ↦ h1.twin`.  When
`i1 = i2` the two keys coincide and the second registration wins, so the
single key maps to `h1.twin`, not `h1` (see the degenerate counterexample). -/
theorem claim_C2_edge_reuse (st : BuildState) (i1 i2 v1 v2 : ℕ) (hne : i1 ≠ i2) :
    (∀ h, jsGet st.halfedgeMap (i1, i2) = some h →
      resolveHalfedge st i1 i2 v1 v2 = (st, h)) ∧
    (jsGet st.halfedgeMap (i1, i2) = none →
      (resolveHalfedge st i1 i2 v1 v2).1.ds = (addEdge st.ds v1 v2).1 ∧
      (resolveHalfedge st i1 i2 v1 v2).2 = (addEdge st.ds v1 v2).2 ∧
      (resolveHalfedge st i1 i2 v1 v2).1.ds.halfedges.length
        = st.ds.halfedges.length + 2 ∧
      jsGet (resolveHalfedge st i1 i2 v1 v2).1.halfedgeMap (i1, i2)
        = some (resolveHalfedge st i1 i2 v1 v2).2 ∧
      jsGet (resolveHalfedge st i1 i2 v1 v2).1.halfedgeMap (i2, i1)
        = some (((resolveHalfedge st i1 i2 v1 v2).1.ds.halfedges.getD
            (resolveHalfedge st i1 i2 v1 v2).2 default).twin) ∧
      ((resolveHalfedge st i1 i2 v1 v2).1.ds.halfedges.getD
          (resolveHalfedge st i1 i2 v1 v2).2 default).twin
        = (resolveHalfedge st i1 i2 v1 v2).2 + 1 ∧
      ((resolveHalfedge st i1 i2 v1 v2).1.ds.halfedges.getD
          ((resolveHalfedge st i1 i2 v1 v2).2 + 1) default).twin
        = (resolveHalfedge st i1 i2 v1 v2).2) := by
  have hpair : ((i2, i1) : ℕ × ℕ) ≠ (i1, i2) := by
    intro hp
    injection hp with h1 h2
    exact hne h2
  constructor
  · intro h hsome
    delta resolveHalfedge
    rw [hsome]
  · intro hnone
    delta resolveHalfedge
    rw [hnone]
    dsimp only []
    refine ⟨rfl, rfl, ?_, ?_, ?_, ?_, ?_⟩
    · delta addEdge
      dsimp only []
      simp
    · rw [jsGet_set_ne _ _ _ _ hpair.symm]
      exact jsGet_set_eq _ _ _
    · rw [jsGet_set_eq]
    · delta addEdge
      dsimp only []
      rw [getD_append_self]
    · delta addEdge
      dsimp only []
      rw [getD_append_succ]

theorem claim_C2_edge_reuse_witness :
    (0 : ℕ) ≠ 1 ∧
    jsGet (⟨⟨[], [], []⟩, [], []⟩ : BuildState).halfedgeMap ((0 : ℕ), (1 : ℕ)) = none ∧
    jsGet (resolveHalfedge ⟨⟨[], [], []⟩, [], []⟩ 0 1 0 0).1.halfedgeMap (0, 1)
      = some (resolveHalfedge ⟨⟨[], [], []⟩, [], []⟩ 0 1 0 0).2 ∧
    jsGet (resolveHalfedge ⟨⟨[], [], []⟩, [], []⟩ 0 1 0 0).1.halfedgeMap (1, 0)
      = some (((resolveHalfedge ⟨⟨[], [], []⟩, [], []⟩ 0 1 0 0).1.ds.halfedges.getD
          (resolveHalfedge ⟨⟨[], [], []⟩, [], []⟩ 0 1 0 0).2 default).twin) :=
  ⟨by decide, rfl,
    ((claim_C2_edge_reuse ⟨⟨[], [], []⟩, [], []⟩ 0 1 0 0 (by decide)).2 rfl).2.2.2.1,
    ((claim_C2_edge_reuse ⟨⟨[], [], []⟩, [], []⟩ 0 1 0 0 (by decide)).2 rfl).2.2.2.2.1⟩

/-- C2 (counterexample): on a degenerate side with `i1 = i2 = 0` (possible
after vertex merging collapses a triangle's corners) the forward and reverse
hash keys coincide; the code sets the key to `h1` and then overwrites it with
`h1.twin`, so the forward key `(0, 0)` ends mapped to halfedge 1 = `h1.twin`,
not to `h1 = 0` as the claim states. -/
theorem claim_C2_degenerate_side_counterexample :
    jsGet (⟨⟨[], [], []⟩, [], []⟩ : BuildState).halfedgeMap ((0 : ℕ), (0 : ℕ)) = none ∧
    (resolveHalfedge ⟨⟨[], [], []⟩, [], []⟩ 0 0 0 0).2 = 0 ∧
    (((resolveHalfedge ⟨⟨[], [], []⟩, [], []⟩ 0 0 0 0).1.ds.halfedges.getD 0 default).twin = 1) ∧
    jsGet (resolveHalfedge ⟨⟨[], [], []⟩, [], []⟩ 0 0 0 0).1.halfedgeMap (0, 0) = some 1 ∧
    (1 : ℕ) ≠ 0 := by
  refine ⟨rfl, rfl, rfl, rfl, by decide⟩

theorem buildFaceStep_error_shape (ctx : BuildCtx) (st : BuildState) (f : ℕ)
    (e : JSError) (h : (buildFaceStep ctx st f).2 = some e) :
    e = .nonManifoldConstructionError "halfedge already has a face" := by
  delta buildFaceStep at h
  dsimp only [] at h
  split at h
  · next e' heq =>
    rw [← Option.some.inj h]
    exact addFace_error_shape _ _ _ heq
  · next r heq =>
    exact absurd h (by simp)

theorem buildFacesFold_error_shape (ctx : BuildCtx) (fs : List ℕ)
    (acc : BuildState × Option JSError) (e : JSError)
    (h : (fs.foldl
        (fun acc faceIndex =>
          match acc with
          | (st0, some e) => (st0, some e)
          | (st0, none) => buildFaceStep ctx st0 faceIndex) acc).2 = some e) :
    acc.2 = some e ∨ e = .nonManifoldConstructionError "halfedge already has a face" := by
  induction fs generalizing acc with
  | nil =>
    rw [List.foldl_nil] at h
    exact Or.inl h
  | cons f rest ih =>
    rw [List.foldl_cons] at h
    rcases ih _ h with hstep | hnm
    · obtain ⟨st0, err0⟩ := acc
      cases err0 with
      | some e0 =>
        simp only [] at hstep
        exact Or.inl hstep
      | none =>
        simp only [] at hstep
        exact Or.inr (buildFaceStep_error_shape ctx st0 f e hstep)
    · exact Or.inr hnm

theorem buildFaces_error_shape (ctx : BuildCtx) (fs : List ℕ) (st : BuildState) (e : JSError)
    (h : (buildFaces ctx fs st).2 = some e) :
    e = .nonManifoldConstructionError "halfedge already has a face" := by
  delta buildFaces at h
  rcases buildFacesFold_error_shape ctx fs (st, none) e h with hl | hr
  · exact absurd hl (by simp)
  · exact hr

/-- C5 (amended): `buildFromGeometry` raises a plain JS `Error` (message
"BufferGeometry does not have a position BufferAttribute.") exactly when the
geometry lacks a position attribute; no separate `MissingAttributeError` type
exists at that throw site.  With a position attribute present, no plain
`Error` is raised at all (the only remaining failure is `addFace`'s
non-manifold error). -/
theorem claim_C5_missing_attribute_error (ds : HalfedgeDS) (geom : BufferGeometry)
    (tol : ℚ) :
    (geom.position = none →
      (buildFromGeometry ds geom tol).2
        = some (.error "BufferGeometry does not have a position BufferAttribute.")) ∧
    (geom.position.isSome →
      ∀ msg, (buildFromGeometry ds geom tol).2 ≠ some (JSError.error msg)) := by
  constructor
  · intro h
    rw [build_missing_position ds geom tol h]
  · intro hs msg hcontra
    obtain ⟨posOpt, idx⟩ := geom
    obtain ⟨positions, rfl⟩ := Option.isSome_iff_exists.mp hs
    have hsnd : (buildFromGeometry ds ⟨some positions, idx⟩ tol).2
        = (buildFaces ⟨positions, idx,
              computeVerticesIndexArray positions tol⟩
            (List.range (match idx with
              | none => (positions.length + 2) / 3
              | some ib => (ib.length + 2) / 3))
            ⟨⟨[], [], []⟩, [], []⟩).2 := by
      cases idx <;> rfl
    rw [hsnd] at hcontra
    have := buildFaces_error_shape _ _ _ _ hcontra
    exact JSError.noConfusion this

theorem claim_C5_missing_attribute_error_witness :
    ((⟨none, none⟩ : BufferGeometry).position = none ∧
      (buildFromGeometry ⟨[], [], []⟩ ⟨none, none⟩ 1).2
        = some (.error "BufferGeometry does not have a position BufferAttribute.")) ∧
    ((⟨some [⟨0, 0, 0⟩, ⟨1, 0, 0⟩, ⟨0, 1, 0⟩], none⟩ : BufferGeometry).position.isSome ∧
      ∀ msg, (buildFromGeometry ⟨[], [], []⟩
          ⟨some [⟨0, 0, 0⟩, ⟨1, 0, 0⟩, ⟨0, 1, 0⟩], none⟩ 1).2 ≠ some (JSError.error msg)) :=
  ⟨⟨rfl, (claim_C5_missing_attribute_error ⟨[], [], []⟩ ⟨none, none⟩ 1).1 rfl⟩,
    ⟨rfl, (claim_C5_missing_attribute_error ⟨[], [], []⟩
      ⟨some [⟨0, 0, 0⟩, ⟨1, 0, 0⟩, ⟨0, 1, 0⟩], none⟩ 1).2 rfl⟩⟩

/-- C5 (counterexample): with no position attribute the thrown value is the
base `Error` class with the message from the source, not a value of a
distinct `MissingAttributeError` type. -/
theorem claim_C5_plain_error_counterexample :
    (buildFromGeometry ⟨[], [], []⟩ ⟨none, none⟩ 1).2
      = some (.error "BufferGeometry does not have a position BufferAttribute.") ∧
    ∀ msg, (buildFromGeometry ⟨[], [], []⟩ ⟨none, none⟩ 1).2
      ≠ some (.missingAttributeError msg) := by
  have hres : (buildFromGeometry ⟨[], [], []⟩ ⟨none, none⟩ 1).2
      = some (.error "BufferGeometry does not have a position BufferAttribute.") := rfl
  refine ⟨hres, ?_⟩
  intro msg h
  rw [hres] at h
  exact JSError.noConfusion (Option.some.inj h)

theorem sideAccesses_subset_buildAccesses (ctx : BuildCtx) (nb k : ℕ) (hk : k < 3 * nb) :
    ∀ a ∈ sideAccesses ctx k, a ∈ buildAccesses ctx nb := by
  intro a ha
  apply List.mem_flatMap.mpr
  refine ⟨k / 3, List.mem_range.mpr (by omega), ?_⟩
  apply List.mem_flatMap.mpr
  refine ⟨k % 3, List.mem_range.mpr (by omega), ?_⟩
  apply List.mem_append_left
  have hrec : k / 3 * 3 + k % 3 = k := by omega
  rw [hrec]
  exact ha

theorem buildAccesses_mem (ctx : BuildCtx) (nb : ℕ) (a : BufAccess)
    (ha : a ∈ buildAccesses ctx nb) :
    ∃ k, k < 3 * nb ∧ a ∈ sideAccesses ctx k := by
  obtain ⟨f, hf, ha2⟩ := List.mem_flatMap.mp ha
  obtain ⟨i, hi, ha3⟩ := List.mem_flatMap.mp ha2
  rw [List.mem_range] at hf
  rw [List.mem_range] at hi
  rcases List.mem_append.mp ha3 with h | h
  · exact ⟨f * 3 + i, by omega, h⟩
  · exact ⟨f * 3 + (i + 1) % 3, by omega, h⟩

theorem cvia_getD_lt (positions : List Vec3) (tol : ℚ) (k : ℕ) (hk : k < positions.length) :
    (computeVerticesIndexArray positions tol).getD k 0 < positions.length := by
  rw [computeVerticesIndexArray_getD positions tol k hk]
  exact lt_of_le_of_lt (canonIdx_le (1 / tol) positions k hk) hk

/-- C9 (amended): with the count (position count, or index count when an
index buffer is present) a multiple of 3 and every index-buffer entry within
the position count, every array access of the face loop — into the
canonical-index array, the index buffer and the position buffer — is within
bounds.  When the count is not a multiple of 3 the loop bound `count / 3` is
fractional, the loop runs `⌈count / 3⌉` times, and the partial extra face
performs an out-of-range read. -/
theorem claim_C9_access_bounds (positions : List Vec3) (optIdx : Option (List ℕ)) (tol : ℚ) :
    (geometryCount positions optIdx % 3 = 0 →
      (∀ e ∈ optIdx.getD [], e < positions.length) →
      ∀ a ∈ buildAccesses (geometryCtx positions optIdx tol)
          ((geometryCount positions optIdx + 2) / 3),
        a.inBounds (geometryCtx positions optIdx tol) = true) ∧
    (geometryCount positions optIdx % 3 ≠ 0 →
      ∃ a ∈ buildAccesses (geometryCtx positions optIdx tol)
          ((geometryCount positions optIdx + 2) / 3),
        a.inBounds (geometryCtx positions optIdx tol) = false) := by
  constructor
  · intro hmod hidx a ha
    obtain ⟨k, hk, hside⟩ := buildAccesses_mem _ _ _ ha
    have hkc : k < geometryCount positions optIdx := by omega
    cases optIdx with
    | none =>
      simp only [geometryCount] at hkc
      simp only [sideAccesses, geometryCtx, List.mem_cons, List.not_mem_nil, or_false]
        at hside
      rcases hside with h | h
      · subst h
        simp only [BufAccess.inBounds, geometryCtx, decide_eq_true_eq]
        rw [computeVerticesIndexArray_length]
        exact hkc
      · subst h
        simp only [BufAccess.inBounds, geometryCtx, decide_eq_true_eq]
        exact cvia_getD_lt positions tol k hkc
    | some ib =>
      simp only [geometryCount] at hkc
      simp only [sideAccesses, geometryCtx, List.mem_cons, List.not_mem_nil, or_false]
        at hside
      have hmem : ib.getD k 0 ∈ ib := by
        rw [List.getD_eq_getElem ib 0 hkc]
        exact List.getElem_mem hkc
      have hev : ib.getD k 0 < positions.length := hidx _ (by simpa using hmem)
      rcases hside with h | h | h
      · subst h
        simp only [BufAccess.inBounds, geometryCtx, Option.getD_some, decide_eq_true_eq]
        exact hkc
      · subst h
        simp only [BufAccess.inBounds, geometryCtx, decide_eq_true_eq]
        rw [computeVerticesIndexArray_length]
        exact hev
      · subst h
        simp only [BufAccess.inBounds, geometryCtx, decide_eq_true_eq]
        exact cvia_getD_lt positions tol _ hev
  · intro hmod
    cases optIdx with
    | none =>
      refine ⟨.indexArr positions.length, ?_, ?_⟩
      · apply sideAccesses_subset_buildAccesses _ _ positions.length
          (by simp only [geometryCount] at hmod ⊢; omega)
        simp [sideAccesses, geometryCtx]
      · simp only [BufAccess.inBounds, geometryCtx, decide_eq_false_iff_not]
        rw [computeVerticesIndexArray_length]
        omega
    | some ib =>
      refine ⟨.indexBuf ib.length, ?_, ?_⟩
      · apply sideAccesses_subset_buildAccesses _ _ ib.length
          (by simp only [geometryCount] at hmod ⊢; omega)
        simp [sideAccesses, geometryCtx]
      · simp only [BufAccess.inBounds, geometryCtx, Option.getD_some, decide_eq_false_iff_not]
        omega

theorem claim_C9_access_bounds_witness :
    (geometryCount [⟨0, 0, 0⟩, ⟨1, 0, 0⟩, ⟨0, 1, 0⟩] (none : Option (List ℕ)) % 3 = 0 ∧
      (∀ a ∈ buildAccesses (geometryCtx [⟨0, 0, 0⟩, ⟨1, 0, 0⟩, ⟨0, 1, 0⟩] none 1)
          ((geometryCount [⟨0, 0, 0⟩, ⟨1, 0, 0⟩, ⟨0, 1, 0⟩] (none : Option (List ℕ)) + 2) / 3),
        a.inBounds (geometryCtx [⟨0, 0, 0⟩, ⟨1, 0, 0⟩, ⟨0, 1, 0⟩] none 1) = true)) ∧
    (geometryCount [⟨0, 0, 0⟩, ⟨1, 0, 0⟩, ⟨0, 1, 0⟩, ⟨2, 0, 0⟩] (none : Option (List ℕ)) % 3 ≠ 0 ∧
      ∃ a ∈ buildAccesses (geometryCtx [⟨0, 0, 0⟩, ⟨1, 0, 0⟩, ⟨0, 1, 0⟩, ⟨2, 0, 0⟩] none 1)
          ((geometryCount [⟨0, 0, 0⟩, ⟨1, 0, 0⟩, ⟨0, 1, 0⟩, ⟨2, 0, 0⟩]
              (none : Option (List ℕ)) + 2) / 3),
        a.inBounds (geometryCtx [⟨0, 0, 0⟩, ⟨1, 0, 0⟩, ⟨0, 1, 0⟩, ⟨2, 0, 0⟩] none 1) = false) :=
  ⟨⟨by decide,
      (claim_C9_access_bounds [⟨0, 0, 0⟩, ⟨1, 0, 0⟩, ⟨0, 1, 0⟩] none 1).1 (by decide) (by simp)⟩,
    ⟨by decide,
      (claim_C9_access_bounds [⟨0, 0, 0⟩, ⟨1, 0, 0⟩, ⟨0, 1, 0⟩, ⟨2, 0, 0⟩] none 1).2
        (by decide)⟩⟩

/-- C9 (counterexample): a geometry with one position and index buffer
[0, 0, 5] has index count 3, a multiple of 3, yet the face loop reads the
canonical-index array at index 5 — out of bounds, the array has length 1.
The multiple-of-3 precondition alone does not make every access in-bounds;
the index-buffer entries must also lie below the position count. -/
theorem claim_C9_invalid_index_counterexample :
    geometryCount [⟨0, 0, 0⟩] (some [0, 0, 5]) % 3 = 0 ∧
    ∃ a ∈ buildAccesses (geometryCtx [⟨0, 0, 0⟩] (some [0, 0, 5]) 1)
        ((geometryCount [⟨0, 0, 0⟩] (some [0, 0, 5]) + 2) / 3),
      a.inBounds (geometryCtx [⟨0, 0, 0⟩] (some [0, 0, 5]) 1) = false := by
  with_unfolding_all decide

theorem iterate_mul_self {α : Type} (f : α → α) (c q : ℕ) (s : α) (hc : f^[c] s = s) :
    f^[c * q] s = s := by
  induction q with
  | zero => simp
  | succ q ih =>
    rw [Nat.mul_succ, Function.iterate_add_apply, hc, ih]

theorem iterate_mod_period {α : Type} (f : α → α) (c k : ℕ) (s : α)
    (hc : f^[c] s = s) : f^[k] s = f^[k % c] s := by
  conv_lhs => rw [← Nat.mod_add_div k c]
  rw [Function.iterate_add_apply, iterate_mul_self f c (k / c) s hc]

theorem orbit_back {α : Type} (f : α → α) (c k : ℕ) (s : α) (hc0 : 0 < c)
    (hc : f^[c] s = s) : ∃ j, f^[j] (f^[k] s) = s := by
  refine ⟨c - k % c, ?_⟩
  rw [← Function.iterate_add_apply]
  have h2 : k % c ≤ c := le_of_lt (Nat.mod_lt _ hc0)
  have h1 : c - k % c + k = c * (1 + k / c) := by
    calc c - k % c + k = c - k % c + (k % c + c * (k / c)) := by rw [Nat.mod_add_div]
      _ = (c - k % c + k % c) + c * (k / c) := by rw [Nat.add_assoc]
      _ = c + c * (k / c) := by rw [Nat.sub_add_cancel h2]
      _ = c * (1 + k / c) := by ring
  rw [h1]
  exact iterate_mul_self f c (1 + k / c) s hc

theorem exists_minimal_period {α : Type} [DecidableEq α] (f : α → α) (s : α)
    (hp : ∃ k, 0 < k ∧ f^[k] s = s) :
    ∃ c, 0 < c ∧ f^[c] s = s ∧ ∀ k, 0 < k → k < c → f^[k] s ≠ s := by
  refine ⟨Nat.find hp, (Nat.find_spec hp).1, (Nat.find_spec hp).2, ?_⟩
  intro k hk0 hkc hks
  exact Nat.find_min hp hkc ⟨hk0, hks⟩

theorem iterate_mem_of_closed {α : Type} (f : α → α) (hs : List α) (s : α)
    (hmem : s ∈ hs) (hclosed : ∀ h ∈ hs, f h ∈ hs) : ∀ k, f^[k] s ∈ hs := by
  intro k
  induction k with
  | zero => simpa using hmem
  | succ n ih =>
    rw [Function.iterate_succ_apply']
    exact hclosed _ ih

theorem minPeriod_le_length {α : Type} [DecidableEq α] (f : α → α) (hs : List α) (s : α)
    (hmem : s ∈ hs) (hclosed : ∀ h ∈ hs, f h ∈ hs) (c : ℕ) (hc0 : 0 < c)
    (hc : f^[c] s = s) (hmin : ∀ k, 0 < k → k < c → f^[k] s ≠ s) :
    c ≤ hs.length := by
  have key : ∀ i j : ℕ, i < j → j < c → f^[i] s ≠ f^[j] s := by
    intro i j hij hjc heq
    have happ : f^[c - j] (f^[i] s) = f^[c - j] (f^[j] s) := by rw [heq]
    rw [← Function.iterate_add_apply, ← Function.iterate_add_apply] at happ
    have hcj : c - j + j = c := Nat.sub_add_cancel (le_of_lt hjc)
    rw [hcj, hc] at happ
    exact hmin (c - j + i) (by omega) (by omega) happ
  have hinj : Set.InjOn (fun k => f^[k] s) (Finset.range c) := by
    intro i hi j hj hij
    simp only [Finset.coe_range, Set.mem_Iio] at hi hj
    rcases Nat.lt_trichotomy i j with h | h | h
    · exact absurd hij (key i j h hj)
    · exact h
    · exact absurd hij.symm (key j i h hi)
  have himg : ∀ k ∈ Finset.range c, f^[k] s ∈ hs.toFinset := by
    intro k _
    rw [List.mem_toFinset]
    exact iterate_mem_of_closed f hs s hmem hclosed k
  calc c = (Finset.range c).card := (Finset.card_range c).symm
    _ ≤ hs.toFinset.card := Finset.card_le_card_of_injOn _ himg hinj
    _ ≤ hs.length := hs.toFinset_card_le

theorem nextLoopGo_mem {α : Type} [DecidableEq α] (f : α → α) (s : α) (c : ℕ)
    (hc : f^[c] s = s) (hmin : ∀ k, 0 < k → k < c → f^[k] s ≠ s) :
    ∀ (fuel j : ℕ), j < c → c - j ≤ fuel →
      ∀ a, (a ∈ nextLoopGo f s fuel (f^[j] s) ↔ ∃ k, j ≤ k ∧ k < c ∧ f^[k] s = a) := by
  intro fuel
  induction fuel with
  | zero =>
    intro j hj hfuel a
    omega
  | succ n ih =>
    intro j hj hfuel a
    have hstep : f (f^[j] s) = f^[j + 1] s := (Function.iterate_succ_apply' f j s).symm
    by_cases hnext : f (f^[j] s) = s
    · have hj1 : j + 1 = c := by
        by_contra hne
        have hlt : j + 1 < c := by omega
        exact hmin (j + 1) (by omega) hlt (by rw [← hstep]; exact hnext)
      simp only [nextLoopGo, hnext, if_pos, List.mem_singleton, List.mem_cons,
        List.not_mem_nil, or_false]
      constructor
      · rintro rfl
        exact ⟨j, le_refl j, hj, rfl⟩
      · rintro ⟨k, hk1, hk2, rfl⟩
        have hkj : k = j := by omega
        rw [hkj]
    · have hj1 : j + 1 < c := by
        rcases Nat.lt_or_ge (j + 1) c with h | h
        · exact h
        · exfalso
          have hjc : j + 1 = c := by omega
          rw [hstep, hjc, hc] at hnext
          exact hnext rfl
      simp only [nextLoopGo, hnext, if_neg, not_false_iff, List.mem_cons]
      rw [hstep, ih (j + 1) hj1 (by omega) a]
      constructor
      · rintro (rfl | ⟨k, hk1, hk2, hk3⟩)
        · exact ⟨j, le_refl _, hj, rfl⟩
        · exact ⟨k, by omega, hk2, hk3⟩
      · rintro ⟨k, hk1, hk2, hk3⟩
        rcases Nat.eq_or_lt_of_le hk1 with rfl | hlt
        · exact Or.inl hk3.symm
        · exact Or.inr ⟨k, by omega, hk2, hk3⟩

theorem nextLoop_mem_orbit {α : Type} [DecidableEq α] (f : α → α) (s : α) (c fuel : ℕ)
    (hc0 : 0 < c) (hc : f^[c] s = s) (hmin : ∀ k, 0 < k → k < c → f^[k] s ≠ s)
    (hfuel : c ≤ fuel) :
    ∀ a, a ∈ nextLoop f fuel s ↔ ∃ k, f^[k] s = a := by
  intro a
  have h0 : f^[0] s = s := rfl
  have := nextLoopGo_mem f s c hc hmin fuel 0 hc0 (by omega) a
  rw [h0] at this
  rw [nextLoop, this]
  constructor
  · rintro ⟨k, _, _, hk⟩
    exact ⟨k, hk⟩
  · rintro ⟨k, hk⟩
    refine ⟨k % c, Nat.zero_le _, Nat.mod_lt _ hc0, ?_⟩
    rw [← iterate_mod_period f c k s hc]
    exact hk
theorem nextLoop_orbit_of_store {α : Type} [DecidableEq α] (f : α → α) (hs : List α)
    (hclosed : ∀ h ∈ hs, f h ∈ hs) (s : α) (hmem : s ∈ hs)
    (hp : ∃ k, 0 < k ∧ f^[k] s = s) :
    ∀ a, a ∈ nextLoop f hs.length s ↔ ∃ k, f^[k] s = a := by
  obtain ⟨c, hc0, hc, hmin⟩ := exists_minimal_period f s hp
  exact nextLoop_mem_orbit f s c hs.length hc0 hc hmin
    (minPeriod_le_length f hs s hmem hclosed c hc0 hc hmin)

theorem self_mem_nextLoop_of_store {α : Type} [DecidableEq α] (f : α → α) (hs : List α)
    (hclosed : ∀ h ∈ hs, f h ∈ hs) (s : α) (hmem : s ∈ hs)
    (hp : ∃ k, 0 < k ∧ f^[k] s = s) :
    s ∈ nextLoop f hs.length s := by
  rw [nextLoop_orbit_of_store f hs hclosed s hmem hp]
  exact ⟨0, rfl⟩

theorem loopsGo_partition {α : Type} [DecidableEq α] (f : α → α) (hs : List α)
    (hclosed : ∀ h ∈ hs, f h ∈ hs)
    (hper : ∀ h ∈ hs, ∃ k, 0 < k ∧ f^[k] h = h) :
    ∀ (pending : List α) (acc : List α) (handled : Finset α),
      (∀ h ∈ pending, h ∈ hs) →
      (∀ r ∈ acc, r ∈ hs) →
      (∀ x, x ∈ handled ↔ ∃ r, r ∈ acc ∧ x ∈ nextLoop f hs.length r) →
      (∀ r1 ∈ acc, ∀ r2 ∈ acc, r1 ≠ r2 →
        ∀ x, x ∈ nextLoop f hs.length r1 → x ∉ nextLoop f hs.length r2) →
      (∀ h, (h ∈ pending ∨ h ∈ handled) →
          ∃ r, r ∈ loopsGo f hs.length pending acc handled ∧ h ∈ nextLoop f hs.length r)
      ∧ (∀ r ∈ loopsGo f hs.length pending acc handled, r ∈ hs)
      ∧ (∀ r1 ∈ loopsGo f hs.length pending acc handled,
          ∀ r2 ∈ loopsGo f hs.length pending acc handled, r1 ≠ r2 →
          ∀ x, x ∈ nextLoop f hs.length r1 → x ∉ nextLoop f hs.length r2) := by
  intro pending
  induction pending with
  | nil =>
    intro acc handled hpend hacc hhand hdisj
    refine ⟨?_, ?_, ?_⟩
    · intro h hh
      rcases hh with hh | hh
      · exact absurd hh (List.not_mem_nil h)
      · obtain ⟨r, hr, hxr⟩ := (hhand h).mp hh
        exact ⟨r, by simpa [loopsGo] using hr, hxr⟩
    · intro r hr
      exact hacc r (by simpa [loopsGo] using hr)
    · intro r1 hr1 r2 hr2 hne x hx
      exact hdisj r1 (by simpa [loopsGo] using hr1) r2 (by simpa [loopsGo] using hr2) hne x hx
  | cons h0 rest ih =>
    intro acc handled hpend hacc hhand hdisj
    have hh0hs : h0 ∈ hs := hpend h0 (List.mem_cons_self h0 rest)
    by_cases hh : h0 ∈ handled
    · have hrw : loopsGo f hs.length (h0 :: rest) acc handled
          = loopsGo f hs.length rest acc handled := by
        simp [loopsGo, hh]
      obtain ⟨hcov, hsub, hdis⟩ := ih acc handled
        (fun h hhm => hpend h (List.mem_cons_of_mem h0 hhm)) hacc hhand hdisj
      rw [hrw]
      refine ⟨?_, hsub, hdis⟩
      intro h hcase
      rcases hcase with hcase | hcase
      · rcases List.mem_cons.mp hcase with rfl | hcase2
        · exact hcov h (Or.inr hh)
        · exact hcov h (Or.inl hcase2)
      · exact hcov h (Or.inr hcase)
    · have hrw : loopsGo f hs.length (h0 :: rest) acc handled
          = loopsGo f hs.length rest (acc ++ [h0])
              (handled ∪ (nextLoop f hs.length h0).toFinset) := by
        simp [loopsGo, hh]
      have horbit := nextLoop_orbit_of_store f hs hclosed h0 hh0hs (hper h0 hh0hs)
      have hself := self_mem_nextLoop_of_store f hs hclosed h0 hh0hs (hper h0 hh0hs)
      have hacc' : ∀ r ∈ acc ++ [h0], r ∈ hs := by
        intro r hr
        rcases List.mem_append.mp hr with hr | hr
        · exact hacc r hr
        · rw [List.mem_singleton.mp hr]
          exact hh0hs
      have hhand' : ∀ x, x ∈ handled ∪ (nextLoop f hs.length h0).toFinset
          ↔ ∃ r, r ∈ acc ++ [h0] ∧ x ∈ nextLoop f hs.length r := by
        intro x
        rw [Finset.mem_union, hhand x, List.mem_toFinset]
        constructor
        · rintro (⟨r, hr, hxr⟩ | hx)
          · exact ⟨r, List.mem_append_left _ hr, hxr⟩
          · exact ⟨h0, List.mem_append_right _ (List.mem_singleton_self h0), hx⟩
        · rintro ⟨r, hr, hxr⟩
          rcases List.mem_append.mp hr with hr | hr
          · exact Or.inl ⟨r, hr, hxr⟩
          · rw [List.mem_singleton.mp hr] at hxr
            exact Or.inr hxr
      have hnew_disj : ∀ r ∈ acc, ∀ x, x ∈ nextLoop f hs.length r
          → x ∉ nextLoop f hs.length h0 := by
        intro r hr x hxr hxh0
        have hrhs : r ∈ hs := hacc r hr
        have horbr := nextLoop_orbit_of_store f hs hclosed r hrhs (hper r hrhs)
        obtain ⟨k1, hk1⟩ := (horbr x).mp hxr
        obtain ⟨k2, hk2⟩ := (horbit x).mp hxh0
        obtain ⟨c0, hc00, hc0, _⟩ := exists_minimal_period f h0 (hper h0 hh0hs)
        obtain ⟨j, hj⟩ := orbit_back f c0 k2 h0 hc00 hc0
        rw [hk2, ← hk1, ← Function.iterate_add_apply] at hj
        have hh0r : h0 ∈ nextLoop f hs.length r := (horbr h0).mpr ⟨j + k1, hj⟩
        exact hh ((hhand h0).mpr ⟨r, hr, hh0r⟩)
      have hdisj' : ∀ r1 ∈ acc ++ [h0], ∀ r2 ∈ acc ++ [h0], r1 ≠ r2 →
          ∀ x, x ∈ nextLoop f hs.length r1 → x ∉ nextLoop f hs.length r2 := by
        intro r1 hr1 r2 hr2 hne x hx1 hx2
        rcases List.mem_append.mp hr1 with hr1 | hr1
        · rcases List.mem_append.mp hr2 with hr2 | hr2
          · exact hdisj r1 hr1 r2 hr2 hne x hx1 hx2
          · rw [List.mem_singleton.mp hr2] at hx2
            exact hnew_disj r1 hr1 x hx1 hx2
        · rcases List.mem_append.mp hr2 with hr2 | hr2
          · rw [List.mem_singleton.mp hr1] at hx1
            exact hnew_disj r2 hr2 x hx2 hx1
          · exact hne ((List.mem_singleton.mp hr1).trans (List.mem_singleton.mp hr2).symm)
      obtain ⟨hcov, hsub, hdis⟩ := ih (acc ++ [h0])
        (handled ∪ (nextLoop f hs.length h0).toFinset)
        (fun h hhm => hpend h (List.mem_cons_of_mem h0 hhm)) hacc' hhand' hdisj'
      rw [hrw]
      refine ⟨?_, hsub, hdis⟩
      intro h hcase
      rcases hcase with hcase | hcase
      · rcases List.mem_cons.mp hcase with rfl | hcase2
        · exact hcov h (Or.inr (Finset.mem_union_right _ (List.mem_toFinset.mpr hself)))
        · exact hcov h (Or.inl hcase2)
      · exact hcov h (Or.inr (Finset.mem_union_left _ hcase))

/-- C3: for every store whose halfedge collection is closed under `next` and
in which every halfedge's `next`-orbit returns to its start (the loop-closure
invariant), `loops()` returns representatives such that every halfedge of the
store belongs to the next-loop of exactly one returned representative. -/
theorem claim_C3_loops_partition {α : Type} [DecidableEq α] (next : α → α)
    (halfedges : List α)
    (hclosed : ∀ h ∈ halfedges, next h ∈ halfedges)
    (hper : ∀ h ∈ halfedges, ∃ k, 0 < k ∧ next^[k] h = h) :
    ∀ h ∈ halfedges, ∃! r, r ∈ loops next halfedges
        ∧ h ∈ nextLoop next halfedges.length r := by
  intro h hmem
  obtain ⟨hcov, hsub, hdisj⟩ := loopsGo_partition next halfedges hclosed hper halfedges [] ∅
    (fun x hx => hx) (by intro r hr; exact absurd hr (List.not_mem_nil r))
    (by intro x; simp) (by intro r1 hr1; exact absurd hr1 (List.not_mem_nil r1))
  obtain ⟨r, hr, hhr⟩ := hcov h (Or.inl hmem)
  refine ⟨r, ⟨hr, hhr⟩, ?_⟩
  rintro r' ⟨hr', hhr'⟩
  by_contra hne
  exact hdisj r' hr' r hr hne h hhr' hhr

theorem claim_C3_loops_partition_witness :
    (∀ h ∈ ([0, 1, 2] : List ℕ), (fun n => (n + 1) % 3) h ∈ ([0, 1, 2] : List ℕ)) ∧
    (∀ h ∈ ([0, 1, 2] : List ℕ), ∃ k, 0 < k ∧ (fun n => (n + 1) % 3)^[k] h = h) ∧
    ∀ h ∈ ([0, 1, 2] : List ℕ),
      ∃! r, r ∈ loops (fun n => (n + 1) % 3) [0, 1, 2]
        ∧ h ∈ nextLoop (fun n => (n + 1) % 3) ([0, 1, 2] : List ℕ).length r :=
  ⟨by decide,
    by
      intro h hh
      exact ⟨3, by decide, by fin_cases hh <;> decide⟩,
    claim_C3_loops_partition (fun n => (n + 1) % 3) [0, 1, 2] (by decide)
      (by
        intro h hh
        exact ⟨3, by decide, by fin_cases hh <;> decide⟩)⟩

end ThreeMeshHalfedge
